import Mathlib

/-!
Verification of the Apollo release-orchestrator scripts.

This development shallowly embeds the release-flow engines of
`apollo-quick-start-release/scripts/release_flow.py` and
`apollo-release/scripts/release_flow.py`, plus the helper
`apollo-java-release/scripts/release_notes_builder.py`.

Modelling conventions:
* Python JSON values are the inductive `Val`; a state document is the
  association list `Doc` with Python-dict update semantics (`setKey`
  replaces in place, later writes win).
* Raised exceptions become `Except FlowErr`; `FlowErr.checkpointPending`
  and `FlowErr.releaseFlowError` mirror the two script exception classes,
  and `FlowErr.pyError` stands for any other uncaught Python exception
  (KeyError, JSONDecodeError, ValueError, ...).
* Stateful methods of `ReleaseFlow` become functions in the state monad
  `M` over `St`; `St.savedDocs` logs every `_save_state` call (most
  recent first) and `St.executed` logs every subprocess actually started.
  The external world (subprocess results) is an oracle in `Env`.
* Wall-clock timeouts of polling loops are modelled by fuel parameters;
  `datetime.fromisoformat` is an abstract decoder `iso : String → Option Int`
  mapping ISO-8601 strings to instants.
-/

namespace Apollo

/-- A Python/JSON value, as produced by `json.loads` and stored in the
state document. -/
inductive Val where
  | vnull
  | vbool (b : Bool)
  | vint (n : Int)
  | vstr (s : String)
  | varr (items : List Val)
  | vobj (fields : List (String × Val))
deriving Repr

/-- A state document: a Python dict from string keys to values. -/
abbrev Doc := List (String × Val)

/-- Model of `d.get(k)`: first binding for `k` (documents built by the embedding
keep keys unique, matching Python dicts). -/
def getKey : Doc → String → Option Val
  | [], _ => none
  | (k', v) :: rest, k => if k' = k then some v else getKey rest k

/-- Model of `d[k] = v`: replace the binding for `k` in place, else append. -/
def setKey : Doc → String → Val → Doc
  | [], k, v => [(k, v)]
  | (k', v') :: rest, k, v =>
      if k' = k then (k, v) :: rest else (k', v') :: setKey rest k v

/-- Model of `d.pop(k, None)`: drop every binding for `k`. -/
def popKey (d : Doc) (k : String) : Doc :=
  d.filter (fun kv => kv.1 ≠ k)

/-- Model of `d.update(md)`: fold the entries of `md` into `d`. -/
def updateDict (d : Doc) (md : Doc) : Doc :=
  md.foldl (fun acc kv => setKey acc kv.1 kv.2) d

/-- Python truthiness (`bool(v)`) of a JSON value. -/
def pyTruthy : Val → Bool
  | .vnull => false
  | .vbool b => b
  | .vint n => n ≠ 0
  | .vstr s => s ≠ ""
  | .varr items => ¬ items.isEmpty
  | .vobj fields => ¬ fields.isEmpty

/-- Exceptions raised by the flow scripts: the two declared exception
classes, and `pyError` for any other uncaught Python exception. -/
inductive FlowErr where
  | releaseFlowError (msg : String)
  | checkpointPending (msg : String)
  | pyError (msg : String)
deriving Repr, DecidableEq

/-- Result of a completed subprocess (`CommandResult` dataclass). -/
structure CommandResult where
  stdout : String
  stderr : String
  returncode : Int
deriving Repr, DecidableEq

/-- The external world's reaction to an actually-started subprocess:
either it completes, or it exceeds the requested timeout. -/
inductive ExecResponse where
  | completed (r : CommandResult)
  | timedOut (stdout stderr : String)
deriving Repr, DecidableEq

/-- Immutable per-invocation context: relevant CLI arguments plus the
oracle describing the external world. `responses n` is the behaviour of
the `n`-th subprocess actually started. -/
structure Env where
  dryRun : Bool
  confirm : Option String
  releaseVersion : String
  nowText : String
  now : Int
  iso : String → Option Int
  responses : Nat → ExecResponse
  waitFuel : Nat
  verifyFuel : Nat
  watchTimeoutSeconds : Int

/-- Mutable flow state: the in-memory state document, the log of
persisted documents (most recent first), and the argv of every
subprocess actually started, in order. -/
structure St where
  doc : Doc
  savedDocs : List Doc
  executed : List (List String)
deriving Repr

/-- State-and-exception monad for `ReleaseFlow` methods.  The final `St`
is returned even when an exception is raised, so theorems can speak
about the state at the moment of the raise. -/
def M (α : Type) := Env → St → Except FlowErr α × St

/-- Sequencing in `M` (exceptions short-circuit, state threads on). -/
def mbind {α β : Type} (x : M α) (f : α → M β) : M β := fun env st =>
  match x env st with
  | (.ok a, st') => f a env st'
  | (.error e, st') => (.error e, st')

/-- Pure return in `M`. -/
def mret {α : Type} (a : α) : M α := fun _ st => (.ok a, st)

/-- Raise an exception in `M` (state unchanged). -/
def throwErr {α : Type} (e : FlowErr) : M α := fun _ st => (.error e, st)

/-- Model of `self._save_state()` viewed abstractly: persist the current
in-memory document (append it to the save log).  The crash-safety of
the write itself is modelled separately by the file-system trace model
below. -/
def saveStateM : M Unit := fun _ st =>
  (.ok (), { st with savedDocs := st.doc :: st.savedDocs })

/-- The fixed checkpoint set of the quick-start flow (`CHECKPOINTS`). -/
def QS_CHECKPOINTS : List String :=
  ["TRIGGER_SYNC_WORKFLOW", "TRIGGER_DOCKER_WORKFLOW"]

/-- The fixed checkpoint set of the apollo formal-release flow
(`CHECKPOINTS`). -/
def REL_CHECKPOINTS : List String :=
  ["PUSH_RELEASE_PR", "CREATE_PRERELEASE", "TRIGGER_PACKAGE_WORKFLOW",
   "TRIGGER_DOCKER_WORKFLOW", "PROMOTE_RELEASE",
   "CREATE_ANNOUNCEMENT_DISCUSSION", "MANAGE_MILESTONES",
   "PUSH_POST_RELEASE_PR"]

/-- The reserved state-document keys of the quick-start flow
(`STATE_RESERVED_KEYS`). -/
def STATE_RESERVED_KEYS : List String :=
  ["release_version", "docker_tag", "steps", "timestamps"]

/-- Whether the document's `pending_checkpoint` entry equals `name`
(the Python comparison `self.state.get("pending_checkpoint") == name`,
which is false for an absent key or a non-string value). -/
def pendingIs (d : Doc) (name : String) : Bool :=
  match getKey d "pending_checkpoint" with
  | some (.vstr p) => p == name
  | _ => false

/-- The message `CheckpointPending` is raised with. -/
def pendingMsg (name message : String) : String :=
  "Reached checkpoint " ++ name ++ ": " ++ message ++
  "\nRe-run with --confirm-checkpoint " ++ name ++ " to continue."

/-- Model of `ReleaseFlow._checkpoint(name, message)`, identical in both flows up
to the checkpoint set `cps`: reject unknown names, bypass under dry-run,
clear-and-proceed on matching confirmation, persist `PENDING(name)` and
raise when a different (or no) checkpoint is pending, and re-raise
without rewriting when `name` is already pending. -/
def checkpointM (cps : List String) (name message : String) : M Unit := fun env st =>
  if name ∉ cps then
    (.error (.releaseFlowError ("Unknown checkpoint: " ++ name)), st)
  else if env.dryRun then
    (.ok (), st)
  else if env.confirm = some name then
    let doc' := popKey (popKey st.doc "pending_checkpoint") "pending_message"
    (.ok (), { st with doc := doc', savedDocs := doc' :: st.savedDocs })
  else if pendingIs st.doc name then
    (.error (.checkpointPending (pendingMsg name message)), st)
  else
    let doc' := setKey (setKey st.doc "pending_checkpoint" (.vstr name))
      "pending_message" (.vstr message)
    (.error (.checkpointPending (pendingMsg name message)),
     { st with doc := doc', savedDocs := doc' :: st.savedDocs })

/-- Model of `self.state.setdefault("steps", {})`: the current steps mapping and
the (possibly in-memory-extended) document; a non-dict `steps` value
makes the subsequent dict operations raise. -/
def stepsMapping (d : Doc) : Except FlowErr (List (String × Val) × Doc) :=
  match getKey d "steps" with
  | some (.vobj m) => .ok (m, d)
  | some _ => .error (.pyError "steps field is not a dict")
  | none => .ok ([], setKey d "steps" (.vobj []))

/-- Model of `ReleaseFlow._step_done(key)`: truthiness of `steps.get(key)`; the
`setdefault` may add an empty `steps` mapping in memory (no save). -/
def stepDoneM (key : String) : M Bool := fun _ st =>
  match stepsMapping st.doc with
  | .error e => (.error e, st)
  | .ok (m, d') =>
      let flag := match getKey m key with
        | some v => pyTruthy v
        | none => false
      (.ok flag, { st with doc := d' })

/-- Model of `ReleaseFlow._mark_step_done(key, metadata)` of the quick-start
flow: set `steps[key] = True`; if metadata is non-empty, reject it when
a key collides with `STATE_RESERVED_KEYS` (before saving), else merge
it with `state.update`; finally save. -/
def markStepDoneQS (key : String) (metadata : Doc) : M Unit := fun _ st =>
  match stepsMapping st.doc with
  | .error e => (.error e, st)
  | .ok (m, d0) =>
      let d1 := setKey d0 "steps" (.vobj (setKey m key (.vbool true)))
      if metadata.isEmpty then
        (.ok (), { st with doc := d1, savedDocs := d1 :: st.savedDocs })
      else if metadata.any (fun kv => kv.1 ∈ STATE_RESERVED_KEYS) then
        (.error (.releaseFlowError "Step metadata contains reserved keys"),
         { st with doc := d1 })
      else
        let d2 := updateDict d1 metadata
        (.ok (), { st with doc := d2, savedDocs := d2 :: st.savedDocs })

/-- Model of `ReleaseFlow._mark_step_done(key, metadata)` of the apollo
formal-release flow: set `steps[key] = True`, merge metadata with no
reserved-key check, save. -/
def markStepDoneRel (key : String) (metadata : Doc) : M Unit := fun _ st =>
  match stepsMapping st.doc with
  | .error e => (.error e, st)
  | .ok (m, d0) =>
      let d1 := setKey d0 "steps" (.vobj (setKey m key (.vbool true)))
      let d2 := if metadata.isEmpty then d1 else updateDict d1 metadata
      (.ok (), { st with doc := d2, savedDocs := d2 :: st.savedDocs })

/-- Model of `ReleaseFlow._mark_timestamp(key)`: record the current instant under
`timestamps[key]` and save. -/
def markTimestampM (key : String) : M Unit := fun env st =>
  match getKey st.doc "timestamps" with
  | some (.vobj m) =>
      let d' := setKey st.doc "timestamps" (.vobj (setKey m key (.vstr env.nowText)))
      (.ok (), { st with doc := d', savedDocs := d' :: st.savedDocs })
  | some _ => (.error (.pyError "timestamps field is not a dict"), st)
  | none =>
      let d' := setKey st.doc "timestamps" (.vobj [(key, .vstr env.nowText)])
      (.ok (), { st with doc := d', savedDocs := d' :: st.savedDocs })

/-- Model of `self.state[key]`: subscript access, `KeyError` when absent. -/
def getItemM (key : String) : M Val := fun _ st =>
  match getKey st.doc key with
  | some v => (.ok v, st)
  | none => (.error (.pyError ("KeyError: " ++ key)), st)

/-- Model of `str(v)` for the values this flow formats into command lines. -/
def pyStrVal : Val → String
  | .vnull => "None"
  | .vbool b => if b then "True" else "False"
  | .vint n => toString n
  | .vstr s => s
  | .varr _ => "<list>"
  | .vobj _ => "<dict>"

/-- Model of `ReleaseFlow._run_command(cmd, mutate, check, timeout_seconds)` of
the quick-start flow.  Under dry-run a mutating command is logged and a
synthetic success is returned with no subprocess started; otherwise the
subprocess runs (appended to `St.executed`), a timeout becomes a
`ReleaseFlowError` carrying the partial streams, and a non-zero exit
under `check` becomes a `ReleaseFlowError`. -/
def runCommandQS (cmd : List String) (mutate check : Bool)
    (timeoutSeconds : Option Int) : M CommandResult := fun env st =>
  if env.dryRun && mutate then
    (.ok { stdout := "", stderr := "", returncode := 0 }, st)
  else
    let st' := { st with executed := st.executed ++ [cmd] }
    match env.responses st.executed.length with
    | .timedOut o e =>
        match timeoutSeconds with
        | some _ =>
            (.error (.releaseFlowError
              ("Command timed out: stdout:\n" ++ o ++ "\nstderr:\n" ++ e)), st')
        | none =>
            (.error (.pyError "subprocess blocked with no timeout"), st')
    | .completed r =>
        if check && r.returncode ≠ 0 then
          (.error (.releaseFlowError
            ("Command failed: stdout:\n" ++ r.stdout ++ "\nstderr:\n" ++ r.stderr)), st')
        else
          (.ok r, st')

/-- Model of `ReleaseFlow._run_command(cmd, mutate, check)` of the apollo
formal-release flow (no timeout parameter, otherwise identical). -/
def runCommandRel (cmd : List String) (mutate check : Bool) : M CommandResult := fun env st =>
  if env.dryRun && mutate then
    (.ok { stdout := "", stderr := "", returncode := 0 }, st)
  else
    let st' := { st with executed := st.executed ++ [cmd] }
    match env.responses st.executed.length with
    | .timedOut _ _ =>
        (.error (.pyError "subprocess blocked with no timeout"), st')
    | .completed r =>
        if check && r.returncode ≠ 0 then
          (.error (.releaseFlowError
            ("Command failed: stdout:\n" ++ r.stdout ++ "\nstderr:\n" ++ r.stderr)), st')
        else
          (.ok r, st')

/-! ### A model of `json.loads`

Executable recursive-descent JSON reader, used wherever the scripts call
`json.loads`.  Simplifications (irrelevant to the state documents these
flows read and write): no floats, no `\uXXXX` escapes, ASCII whitespace. -/

/-- Skip JSON whitespace. -/
def skipWs : List Char → List Char
  | c :: rest =>
      if c = ' ' || c = '\t' || c = '\n' || c = '\r' then skipWs rest else c :: rest
  | [] => []

/-- Decode one string escape character: the escape letter paired with
the character it denotes (backspace 8, tab 9, newline 10, form feed 12,
carriage return 13). -/
def escTable : List (Char × Char) :=
  [('"', '"'), ('\\', '\\'), ('/', '/'), ('b', Char.ofNat 8),
   ('t', Char.ofNat 9), ('n', Char.ofNat 10), ('f', Char.ofNat 12),
   ('r', Char.ofNat 13)]

/-- Look up an escape letter in `escTable`. -/
def escChar (e : Char) : Option Char :=
  (escTable.find? (fun p => p.1 = e)).map (fun p => p.2)

/-- Read a JSON string body (after the opening quote), returning its
characters and the remainder after the closing quote. -/
def parseStrChars : List Char → Option (List Char × List Char)
  | [] => none
  | '"' :: rest => some ([], rest)
  | '\\' :: [] => none
  | '\\' :: c :: rest => do
      let ec ← escChar c
      let (s, r) ← parseStrChars rest
      some (ec :: s, r)
  | c :: rest => do
      let (s, r) ← parseStrChars rest
      some (c :: s, r)

/-- Split off leading decimal digits. -/
def takeDigits (cs : List Char) : List Char × List Char :=
  cs.span Char.isDigit

/-- Value of a digit string. -/
def digitsVal (ds : List Char) : Nat :=
  ds.foldl (fun a c => a * 10 + (c.toNat - 48)) 0

mutual

/-- Read one JSON value (fuel-bounded). -/
def parseVal : Nat → List Char → Option (Val × List Char)
  | 0, _ => none
  | f + 1, cs =>
      match skipWs cs with
      | 'n' :: 'u' :: 'l' :: 'l' :: rest => some (.vnull, rest)
      | 't' :: 'r' :: 'u' :: 'e' :: rest => some (.vbool true, rest)
      | 'f' :: 'a' :: 'l' :: 's' :: 'e' :: rest => some (.vbool false, rest)
      | '"' :: rest => do
          let (s, r) ← parseStrChars rest
          some (.vstr (String.mk s), r)
      | '[' :: rest =>
          (match skipWs rest with
           | ']' :: r2 => some (.varr [], r2)
           | r2 => parseItems f r2 [])
      | '{' :: rest =>
          (match skipWs rest with
           | '}' :: r2 => some (.vobj [], r2)
           | r2 => parseFields f r2 [])
      | '-' :: rest =>
          (match takeDigits rest with
           | ([], _) => none
           | (ds, r2) => some (.vint (-(digitsVal ds : Int)), r2))
      | cs' =>
          (match takeDigits cs' with
           | ([], _) => none
           | (ds, r2) => some (.vint (digitsVal ds : Int), r2))

/-- Read the items of a JSON array (after `[`, first item pending). -/
def parseItems : Nat → List Char → List Val → Option (Val × List Char)
  | 0, _, _ => none
  | f + 1, cs, acc => do
      let (v, r) ← parseVal f cs
      match skipWs r with
      | ',' :: r2 => parseItems f r2 (acc ++ [v])
      | ']' :: r2 => some (.varr (acc ++ [v]), r2)
      | _ => none

/-- Read the fields of a JSON object (after `{`, first field pending);
duplicate keys follow `json.loads` last-wins semantics via `setKey`. -/
def parseFields : Nat → List Char → List (String × Val) → Option (Val × List Char)
  | 0, _, _ => none
  | f + 1, cs, acc =>
      match skipWs cs with
      | '"' :: rest => do
          let (k, r) ← parseStrChars rest
          match skipWs r with
          | ':' :: r2 => do
              let (v, r3) ← parseVal f r2
              let acc' := setKey acc (String.mk k) v
              match skipWs r3 with
              | ',' :: r4 => parseFields f r4 acc'
              | '}' :: r4 => some (.vobj acc', r4)
              | _ => none
          | _ => none
      | _ => none

end

/-- Model of `json.loads`: read one JSON value and require the input be fully
consumed. -/
def jsonParse (s : String) : Option Val :=
  match parseVal (s.length + 2) s.toList with
  | some (v, rest) => if (skipWs rest).isEmpty then some v else none
  | none => none

/-! ### The Durable State Store: `_load_state` -/

/-- The empty skeleton document of the quick-start flow. -/
def skeletonQS : Val :=
  .vobj [("release_version", .vnull), ("docker_tag", .vnull),
         ("timestamps", .vobj []), ("steps", .vobj [])]

/-- The empty skeleton document of the apollo formal-release flow. -/
def skeletonRel : Val :=
  .vobj [("release_version", .vnull), ("next_snapshot", .vnull),
         ("timestamps", .vobj []), ("steps", .vobj [])]

/-- Model of `ReleaseFlow._load_state` of the quick-start flow: absent file is
the fresh-start skeleton; a present file is `json.loads`-parsed, and a
`JSONDecodeError` is rewrapped as a `ReleaseFlowError`. -/
def loadStateQS (file : Option String) : Except FlowErr Val :=
  match file with
  | none => .ok skeletonQS
  | some text =>
      match jsonParse text with
      | some v => .ok v
      | none => .error (.releaseFlowError
          "State file is corrupted. Delete it to restart, or fix the JSON manually.")

/-- Model of `ReleaseFlow._load_state` of the apollo formal-release flow: absent
file is the fresh-start skeleton; a present file is parsed with no
try/except, so a `JSONDecodeError` propagates uncaught. -/
def loadStateRel (file : Option String) : Except FlowErr Val :=
  match file with
  | none => .ok skeletonRel
  | some text =>
      match jsonParse text with
      | some v => .ok v
      | none => .error (.pyError "json.decoder.JSONDecodeError")

/-- Whether a load result is an error (used to state counterexamples
without quantifiers). -/
def isErrorRes (x : Except FlowErr Val) : Bool :=
  match x with
  | .error _ => true
  | .ok _ => false

/-- Whether a JSON value has the expected structure of a state document
(a JSON object). -/
def isObjVal : Val → Bool
  | .vobj _ => true
  | _ => false

/-! ### The Run-Waiter -/

/-- The creation instant of a run entry, when it is a dict whose
`createdAt` field is a string that `iso` decodes. -/
def timeOf (iso : String → Option Int) (run : Val) : Option Int :=
  match run with
  | .vobj m =>
      match getKey m "createdAt" with
      | some (.vstr s) => iso s
      | _ => none
  | _ => none

/-- The candidate pass of the quick-start `select_workflow_run`: walk
the runs in order, skip entries whose `createdAt` is not a string,
raise when a string fails to decode, and keep `(createdAt, run)` for
runs at or after `threshold`. -/
def collectCandidates (iso : String → Option Int) (threshold : Int) :
    List Val → Except FlowErr (List (Int × Val))
  | [] => .ok []
  | run :: rest =>
      match run with
      | .vobj m =>
          (match getKey m "createdAt" with
           | some (.vstr s) =>
               (match iso s with
                | none => .error (.pyError ("ValueError: invalid isoformat string: " ++ s))
                | some t =>
                    if threshold ≤ t then
                      (collectCandidates iso threshold rest).map (fun cs => (t, run) :: cs)
                    else
                      collectCandidates iso threshold rest)
           | _ => collectCandidates iso threshold rest)
      | _ => .error (.pyError "AttributeError: run has no attribute get")

/-- Model of `candidates.sort(reverse=True)[0]` on a non-empty candidate list:
a stable descending sort followed by taking the head returns the first
candidate attaining the maximal creation instant. -/
def pickLatest (hd : Int × Val) (tl : List (Int × Val)) : Int × Val :=
  tl.foldl (fun best c => if best.1 < c.1 then c else best) hd

/-- Model of `select_workflow_run(runs, started_at)` of the quick-start flow. -/
def select_workflow_run (iso : String → Option Int) (runs : List Val)
    (startedAt : Int) : Except FlowErr (Option Val) :=
  match collectCandidates iso (startedAt - 5) runs with
  | .error e => .error e
  | .ok [] => .ok none
  | .ok (c :: cs) => .ok (some (pickLatest c cs).2)

/-- The selection loop inside `_wait_for_new_run` of the apollo
formal-release flow: return the FIRST run, in listing order, created at
or after `startedAt - 5`; missing or undecodable `createdAt` raises. -/
def firstMatchingRun (iso : String → Option Int) (startedAt : Int) :
    List Val → Except FlowErr (Option Val)
  | [] => .ok none
  | run :: rest =>
      match run with
      | .vobj m =>
          (match getKey m "createdAt" with
           | some (.vstr s) =>
               (match iso s with
                | none => .error (.pyError ("ValueError: invalid isoformat string: " ++ s))
                | some t =>
                    if startedAt - 5 ≤ t then .ok (some run)
                    else firstMatchingRun iso startedAt rest)
           | some _ => .error (.pyError "AttributeError: createdAt has no attribute replace")
           | none => .error (.pyError "KeyError: createdAt"))
      | _ => .error (.pyError "TypeError: run is not a dict")

/-- The `gh run list` command of the quick-start `_wait_for_new_run`. -/
def ghRunListQS (workflow : String) : List String :=
  ["gh", "run", "list", "--repo", "apolloconfig/apollo-quick-start",
   "--workflow", workflow, "--event", "workflow_dispatch", "--limit", "20",
   "--json", "databaseId,createdAt,status,url,conclusion,headBranch,event"]

/-- One poll of the quick-start `_wait_for_new_run`: list the runs,
decode the payload (`or "[]"` on empty stdout, list required), select. -/
def pollOnceQS (workflow : String) (startedAt : Int) : M (Option Val) :=
  mbind (runCommandQS (ghRunListQS workflow) false true none) (fun result =>
    fun env st =>
      let stdoutText := if result.stdout = "" then "[]" else result.stdout
      match jsonParse stdoutText with
      | none => (.error (.pyError "json.decoder.JSONDecodeError"), st)
      | some (.varr runs) =>
          (match select_workflow_run env.iso runs startedAt with
           | .error e => (.error e, st)
           | .ok m => (.ok m, st))
      | some _ =>
          (.error (.releaseFlowError
            ("Unexpected workflow runs payload for " ++ workflow)), st))

/-- Model of `_wait_for_new_run` of the quick-start flow; `fuel` is the number of
re-polls the wall-clock timeout still allows. -/
def waitForNewRunQS (workflow : String) (startedAt : Int) : Nat → M Val
  | 0 =>
      mbind (pollOnceQS workflow startedAt) (fun m =>
        match m with
        | some run => mret run
        | none => throwErr (.releaseFlowError
            ("Timed out waiting for workflow run for " ++ workflow)))
  | fuel + 1 =>
      mbind (pollOnceQS workflow startedAt) (fun m =>
        match m with
        | some run => mret run
        | none => waitForNewRunQS workflow startedAt fuel)

/-- The `gh run list` command of the apollo formal-release
`_wait_for_new_run`. -/
def ghRunListRel (workflow : String) : List String :=
  ["gh", "run", "list", "--repo", "apolloconfig/apollo",
   "--workflow", workflow, "--event", "workflow_dispatch", "--limit", "20",
   "--json", "databaseId,createdAt,status,url,headBranch,event"]

/-- One poll of the apollo formal-release `_wait_for_new_run`: list the
runs, `json.loads` the stdout as-is, then scan for the first match (a
non-list payload raises when iterated/indexed). -/
def pollOnceRel (workflow : String) (startedAt : Int) : M (Option Val) :=
  mbind (runCommandRel (ghRunListRel workflow) false true) (fun result =>
    fun env st =>
      match jsonParse result.stdout with
      | none => (.error (.pyError "json.decoder.JSONDecodeError"), st)
      | some (.varr runs) =>
          (match firstMatchingRun env.iso startedAt runs with
           | .error e => (.error e, st)
           | .ok m => (.ok m, st))
      | some _ => (.error (.pyError "TypeError: runs payload is not a list"), st))

/-- Model of `_wait_for_new_run` of the apollo formal-release flow. -/
def waitForNewRunRel (workflow : String) (startedAt : Int) : Nat → M Val
  | 0 =>
      mbind (pollOnceRel workflow startedAt) (fun m =>
        match m with
        | some run => mret run
        | none => throwErr (.releaseFlowError
            ("Timed out waiting for workflow run for " ++ workflow)))
  | fuel + 1 =>
      mbind (pollOnceRel workflow startedAt) (fun m =>
        match m with
        | some run => mret run
        | none => waitForNewRunRel workflow startedAt fuel)

/-! ### The two cited Step-Ledger step functions -/

/-- Model of `run[key]`: dict subscript on a JSON value. -/
def getDictItem (run : Val) (key : String) : Except FlowErr Val :=
  match run with
  | .vobj m =>
      (match getKey m key with
       | some v => .ok v
       | none => .error (.pyError ("KeyError: " ++ key)))
  | _ => .error (.pyError "TypeError: value is not a dict")

/-- Model of `run.get(key)` with a `None` default. -/
def getDictDefault (run : Val) (key : String) : Val :=
  match run with
  | .vobj m => (getKey m key).getD .vnull
  | _ => .vnull

/-- Model of `int(v)` on the values a run dict may hold. -/
def pyInt : Val → Except FlowErr Int
  | .vint n => .ok n
  | .vbool b => .ok (if b then 1 else 0)
  | .vstr s =>
      (match s.toInt? with
       | some n => .ok n
       | none => .error (.pyError ("ValueError: invalid literal for int: " ++ s)))
  | _ => .error (.pyError "TypeError: cannot convert to int")

/-- Model of `ReleaseFlow._trigger_docker_workflow` of the quick-start flow:
skip when already done; checkpoint; under dry-run mark done with
placeholder metadata; otherwise dispatch the workflow, wait for its run,
watch it, mark done with the run metadata, and timestamp. -/
def triggerDockerWorkflowQS : M Unit :=
  mbind (stepDoneM "docker_workflow_completed") (fun done =>
  if done then mret () else
  mbind (checkpointM QS_CHECKPOINTS "TRIGGER_DOCKER_WORKFLOW"
      "Trigger docker-publish.yml to publish quick-start Docker image.") (fun _ =>
  fun env st =>
    if env.dryRun then
      (markStepDoneQS "docker_workflow_completed"
        [("docker_workflow_run_id", .vint 0),
         ("docker_workflow_url", .vstr "https://example.invalid/docker-workflow")]) env st
    else
      (mbind (getItemM "docker_tag") (fun dockerTag =>
       mbind (runCommandQS
           ["gh", "workflow", "run", "docker-publish.yml",
            "--repo", "apolloconfig/apollo-quick-start", "--ref", "master",
            "-f", "tag=" ++ pyStrVal dockerTag] true true none) (fun _ =>
       fun env' st' =>
       (mbind (waitForNewRunQS "docker-publish.yml" env'.now env'.waitFuel) (fun run =>
        fun env'' st'' =>
        match (getDictItem run "databaseId").bind pyInt with
        | .error e => (.error e, st'')
        | .ok runId =>
            (mbind (runCommandQS
                ["gh", "run", "watch", toString runId,
                 "--repo", "apolloconfig/apollo-quick-start", "--exit-status"]
                true true (some env''.watchTimeoutSeconds)) (fun _ =>
             mbind (markStepDoneQS "docker_workflow_completed"
                [("docker_workflow_run_id", .vint runId),
                 ("docker_workflow_url", getDictDefault run "url")]) (fun _ =>
             markTimestampM "docker_workflow_completed_at"))) env'' st'')) env' st')
       )) env st))

/-- Insert a string into an ascending list (models Python `sorted`). -/
def insertStr (s : String) : List String → List String
  | [] => [s]
  | t :: ts => if s ≤ t then s :: t :: ts else t :: insertStr s ts

/-- Ascending insertion sort on strings. -/
def sortStrs (l : List String) : List String := l.foldr insertStr []

/-- Model of `ReleaseFlow._expected_release_assets` of the apollo formal-release
flow. -/
def expectedReleaseAssets (version : String) : List String :=
  let files := ["apollo-configservice-" ++ version ++ "-github.zip",
                "apollo-adminservice-" ++ version ++ "-github.zip",
                "apollo-portal-" ++ version ++ "-github.zip"]
  let checksums := files.map (fun name => name ++ ".sha1")
  sortStrs (files ++ checksums)

/-- Extract the non-empty asset names of a `gh release view` payload
(`{asset.get("name", "") for asset in assets if asset.get("name")}`);
truthy non-string names would make the subsequent `sorted` raise. -/
def assetNames : List Val → Except FlowErr (List String)
  | [] => .ok []
  | asset :: rest =>
      match asset with
      | .vobj m =>
          (match getKey m "name" with
           | some (.vstr s) =>
               if s = "" then assetNames rest
               else (assetNames rest).map (fun ns => s :: ns)
           | some v =>
               if pyTruthy v then .error (.pyError "TypeError: unorderable asset name")
               else assetNames rest
           | none => assetNames rest)
      | _ => .error (.pyError "AttributeError: asset has no attribute get")

/-- One poll of `ReleaseFlow._verify_release_assets`: view the release,
collect present asset names, and return `some names` when no expected
asset is missing, else `none`. -/
def verifyAssetsOnceRel (version : String) : M (Option (List String)) :=
  mbind (runCommandRel
      ["gh", "release", "view", "v" ++ version,
       "--repo", "apolloconfig/apollo", "--json", "assets,url"] false true) (fun view =>
    fun _ st =>
      match jsonParse view.stdout with
      | none => (.error (.pyError "json.decoder.JSONDecodeError"), st)
      | some (.vobj payload) =>
          (match (getKey payload "assets").getD (.varr []) with
           | .varr assets =>
               (match assetNames assets with
                | .error e => (.error e, st)
                | .ok collected =>
                    let names := sortStrs collected.dedup
                    let expected := expectedReleaseAssets version
                    let missing := sortStrs (expected.dedup.filter (fun x => x ∉ names))
                    if missing.isEmpty then (.ok (some names), st) else (.ok none, st))
           | _ => (.error (.pyError "TypeError: assets payload is not a list"), st))
      | some _ => (.error (.pyError "AttributeError: payload has no attribute get"), st))

/-- Model of `ReleaseFlow._verify_release_assets` of the apollo formal-release
flow; `fuel` is the number of re-polls the wall-clock timeout still
allows, and exhausting it raises the missing-assets error. -/
def verifyReleaseAssetsRel (version : String) : Nat → M (List String)
  | 0 =>
      mbind (verifyAssetsOnceRel version) (fun m =>
        match m with
        | some names => mret names
        | none => throwErr (.releaseFlowError
            "Release assets verification failed. Missing files after package workflow."))
  | fuel + 1 =>
      mbind (verifyAssetsOnceRel version) (fun m =>
        match m with
        | some names => mret names
        | none => verifyReleaseAssetsRel version fuel)

/-- Model of `ReleaseFlow._trigger_package_workflow` of the apollo formal-release
flow: skip when already done; checkpoint; under dry-run mark done with
placeholder metadata; otherwise dispatch the package workflow, wait for
its run, watch it, verify the release assets, mark done with the run
metadata, and timestamp. -/
def triggerPackageWorkflowRel : M Unit :=
  mbind (stepDoneM "package_workflow_completed") (fun done =>
  if done then mret () else
  mbind (checkpointM REL_CHECKPOINTS "TRIGGER_PACKAGE_WORKFLOW"
      "Trigger release-packages.yml to build packages in GitHub Action and upload release assets.") (fun _ =>
  fun env st =>
    if env.dryRun then
      (mbind (markStepDoneRel "package_workflow_completed"
        [("package_workflow_run_id", .vint 0),
         ("package_workflow_url", .vstr "https://example.invalid/package-workflow"),
         ("release_assets", .varr ((expectedReleaseAssets env.releaseVersion).map .vstr))])
        (fun _ => mret ())) env st
    else
      (mbind (runCommandRel
           ["gh", "workflow", "run", "release-packages.yml",
            "--repo", "apolloconfig/apollo", "--ref", "master",
            "-f", "release_tag=v" ++ env.releaseVersion] true true) (fun _ =>
       fun env' st' =>
       (mbind (waitForNewRunRel "release-packages.yml" env'.now env'.waitFuel) (fun run =>
        fun envr str =>
        match getDictItem run "databaseId" with
        | .error e => (.error e, str)
        | .ok runIdVal =>
          (mbind (runCommandRel
              ["gh", "run", "watch", pyStrVal runIdVal,
               "--repo", "apolloconfig/apollo", "--exit-status"] true true) (fun _ =>
           fun env'' st'' =>
           (mbind (verifyReleaseAssetsRel env''.releaseVersion env''.verifyFuel) (fun assets =>
            mbind (markStepDoneRel "package_workflow_completed"
               [("package_workflow_run_id", runIdVal),
                ("package_workflow_url", getDictDefault run "url"),
                ("release_assets", .varr (assets.map .vstr))]) (fun _ =>
            markTimestampM "package_workflow_completed_at"))) env'' st'')) envr str)) env' st')) env st))

/-! ### Process exit codes (`main`) -/

/-- The exception-to-exit-code mapping of `main` in the quick-start
flow: `CheckpointPending` exits 2, `ReleaseFlowError` exits 1, success
exits 0; any other uncaught exception aborts the interpreter with a
traceback and status 1. -/
def exitCodeQS : Except FlowErr Unit → Nat
  | .ok _ => 0
  | .error (.checkpointPending _) => 2
  | .error (.releaseFlowError _) => 1
  | .error (.pyError _) => 1

/-- The exception-to-exit-code mapping of `main` in the apollo
formal-release flow: `CheckpointPending` exits 0 (the same as success),
`ReleaseFlowError` exits 1; any other uncaught exception aborts the
interpreter with a traceback and status 1. -/
def exitCodeRel : Except FlowErr Unit → Nat
  | .ok _ => 0
  | .error (.checkpointPending _) => 0
  | .error (.releaseFlowError _) => 1
  | .error (.pyError _) => 1

/-! ### Crash model of `_save_state`

`_save_state` is the one place the scripts touch the file system
directly, so it is modelled at the level of file-system operations.  A
path is a (directory, file-name) pair; a file system maps paths to an
optional content string.  A crash may stop execution between any two
operations, and may additionally interrupt a `writeFile` after the
open-for-write truncation, leaving any prefix of the new content;
`rename` is the atomic `os.replace`. -/

/-- A file-system path: directory and file name. -/
abbrev FPath := String × String

/-- A file system: contents by path. -/
abbrev FS := FPath → Option String

/-- Write (truncate-then-write) a full content string. -/
def setFile (fs : FS) (p : FPath) (c : String) : FS :=
  fun q => if q = p then some c else fs q

/-- One file-system operation of a save routine. -/
inductive FsOp where
  | writeFile (p : FPath) (c : String)
  | fsyncFile (p : FPath)
  | rename (src dst : FPath)

/-- Effect of a completed operation. -/
def applyOp (fs : FS) : FsOp → FS
  | .writeFile p c => setFile fs p c
  | .fsyncFile _ => fs
  | .rename src dst =>
      fun q => if q = dst then fs src else if q = src then none else fs q

/-- File systems observable when a crash lands in the middle of one
operation: a write may leave any prefix of the new content (the open
already truncated the file); fsync and rename have no intermediate
states. -/
def midCrash (op : FsOp) (fs fs' : FS) : Prop :=
  match op with
  | .writeFile p c => ∃ c' rest, c = c' ++ rest ∧ fs' = setFile fs p c'
  | .fsyncFile _ => False
  | .rename _ _ => False

/-- File systems observable if execution of `ops` from `fs` is
interrupted at any point (including before the first and after the last
operation). -/
def crashStates : FS → List FsOp → FS → Prop
  | fs, [], fs' => fs' = fs
  | fs, op :: rest, fs' =>
      fs' = fs ∨ midCrash op fs fs' ∨ crashStates (applyOp fs op) rest fs'

/-- The target path of the state file. -/
def targetPath (dir name : String) : FPath := (dir, name)

/-- The temporary path `NamedTemporaryFile` creates next to the target
(prefix `.<name>.`, suffix `.tmp`; the random middle part is elided). -/
def tmpPath (dir name : String) : FPath := (dir, "." ++ name ++ ".tmp")

/-- Model of `ReleaseFlow._save_state` of the quick-start flow as a file-system
trace: write the serialized document to a temporary file in the same
directory, fsync it, then atomically rename it over the target. -/
def saveStateOpsQS (dir name content : String) : List FsOp :=
  [.writeFile (tmpPath dir name) content,
   .fsyncFile (tmpPath dir name),
   .rename (tmpPath dir name) (targetPath dir name)]

/-- Model of `ReleaseFlow._save_state` of the apollo formal-release flow as a
file-system trace: `Path.write_text` writes the target in place. -/
def saveStateOpsRel (dir name content : String) : List FsOp :=
  [.writeFile (targetPath dir name) content]

/-! ### `parse_highlight_pr_numbers` (release-notes builder) -/

/-- The separator class of `re.split(r"[,\s]+", ...)` (ASCII). -/
def prSep (c : Char) : Bool :=
  c = ',' || c.isWhitespace || c = '\x0b' || c = '\x0c'

/-- Maximal separator-free runs of the input characters (`cur` holds
the current run, reversed). -/
def tokenizeGo : List Char → List Char → List String
  | [], cur => if cur.isEmpty then [] else [String.mk cur.reverse]
  | c :: rest, cur =>
      if prSep c then
        (if cur.isEmpty then tokenizeGo rest []
         else String.mk cur.reverse :: tokenizeGo rest [])
      else tokenizeGo rest (c :: cur)

/-- The non-empty tokens of the input after splitting on commas and
whitespace — `re.split(r"[,\s]+", raw.strip())` followed by dropping
empty pieces, which leaves exactly the maximal separator-free runs. -/
def hlTokens (raw : String) : List String := tokenizeGo raw.toList []

/-- Model of `re.fullmatch(r"\d+", token)` on a token (tokens are non-empty). -/
def isDigits (t : String) : Bool := t.toList.all Char.isDigit

/-- Model of `int(token)` for a digit token. -/
def natOf (t : String) : Nat := digitsVal t.toList

/-- The token loop of `parse_highlight_pr_numbers`: reject a non-digit
or zero token, drop duplicates, keep first-occurrence order. -/
def prGo : List String → List Nat → List Nat → Except String (List Nat)
  | [], _, numbers => .ok numbers
  | t :: ts, seen, numbers =>
      if ¬ isDigits t then .error ("Invalid PR number: " ++ t)
      else
        let value := natOf t
        if value = 0 then .error ("Invalid PR number: " ++ t)
        else if value ∈ seen then prGo ts seen numbers
        else prGo ts (value :: seen) (numbers ++ [value])

/-- Model of `parse_highlight_pr_numbers(raw)` of the release-notes builder. -/
def parse_highlight_pr_numbers (raw : String) : Except String (List Nat) :=
  let tokens := hlTokens raw
  if tokens.isEmpty then .error "No PR numbers provided"
  else prGo tokens [] []

/-- First-occurrence deduplication, written from the claim's words: keep
each number the first time it appears, preserving that order. -/
def dedupFirstOcc (l : List Nat) : List Nat :=
  l.foldl (fun acc x => if x ∈ acc then acc else acc ++ [x]) []

/-! ### Dictionary lemmas -/

theorem getKey_popKey_self (d : Doc) (k : String) : getKey (popKey d k) k = none := by
  induction d with
  | nil => rfl
  | cons kv rest ih =>
      by_cases h : kv.1 = k
      · simpa [popKey, List.filter, h] using ih
      · obtain ⟨k', v'⟩ := kv
        simp only at h
        simp [popKey, List.filter, h, getKey] at ih ⊢
        simpa [popKey] using ih

theorem getKey_popKey_ne (d : Doc) (k k' : String) (h : k' ≠ k) :
    getKey (popKey d k) k' = getKey d k' := by
  induction d with
  | nil => rfl
  | cons kv rest ih =>
      obtain ⟨k₀, v₀⟩ := kv
      by_cases hk : k₀ = k
      · subst hk
        simp [popKey, List.filter, getKey, Ne.symm h] at ih ⊢
        simpa [popKey] using ih
      · by_cases hk' : k₀ = k'
        · simp [popKey, List.filter, hk, getKey, hk', h]
        · simp [popKey, List.filter, hk, getKey, hk'] at ih ⊢
          simpa [popKey] using ih

theorem getKey_setKey_self (d : Doc) (k : String) (v : Val) :
    getKey (setKey d k v) k = some v := by
  induction d with
  | nil => simp [setKey, getKey]
  | cons kv rest ih =>
      obtain ⟨k₀, v₀⟩ := kv
      by_cases hk : k₀ = k
      · simp [setKey, hk, getKey]
      · simp [setKey, hk, getKey, ih]

theorem getKey_setKey_ne (d : Doc) (k k' : String) (v : Val) (h : k' ≠ k) :
    getKey (setKey d k v) k' = getKey d k' := by
  induction d with
  | nil => simp [setKey, getKey, Ne.symm h]
  | cons kv rest ih =>
      obtain ⟨k₀, v₀⟩ := kv
      by_cases hk : k₀ = k
      · subst hk
        simp [setKey, getKey, Ne.symm h]
      · simp [setKey, hk, getKey, ih]

theorem getKey_updateDict_not_mem (md : Doc) (d : Doc) (k : String)
    (h : ∀ kv ∈ md, kv.1 ≠ k) : getKey (updateDict d md) k = getKey d k := by
  induction md generalizing d with
  | nil => rfl
  | cons kv rest ih =>
      have hk : kv.1 ≠ k := h kv (List.mem_cons_self kv rest)
      have hrest : ∀ kv' ∈ rest, kv'.1 ≠ k := fun kv' hm => h kv' (List.mem_cons_of_mem kv hm)
      calc getKey (updateDict d (kv :: rest)) k
          = getKey (updateDict (setKey d kv.1 kv.2) rest) k := rfl
        _ = getKey (setKey d kv.1 kv.2) k := ih (setKey d kv.1 kv.2) hrest
        _ = getKey d k := getKey_setKey_ne d kv.1 k kv.2 (fun he => hk he.symm)

theorem updateDict_nil (d : Doc) : updateDict d [] = d := rfl

/-! ### Test fixtures for witnesses -/

/-- A concrete environment for witness instantiations. -/
def envFixture (dry : Bool) (confirm : Option String) : Env :=
  { dryRun := dry, confirm := confirm, releaseVersion := "2.5.0",
    nowText := "2026-02-21T08:00:00+00:00", now := 100,
    iso := fun s => s.toInt?,
    responses := fun _ => .completed { stdout := "", stderr := "", returncode := 0 },
    waitFuel := 0, verifyFuel := 0, watchTimeoutSeconds := 7200 }

/-- A concrete flow state for witness instantiations. -/
def stFixture (doc : Doc) : St := { doc := doc, savedDocs := [], executed := [] }

/-! ### Claims about the Checkpoint Gate -/

/-- C1: for a checkpoint name `X` in the fixed checkpoint set, outside
dry-run mode the gate follows the three-branch transition rule: a
matching confirmation removes any `pending_checkpoint`/`pending_message`
entries, saves, and returns normally; a non-matching (or absent) pending
entry is rewritten to `PENDING(X)` with the operator message, saved, and
`CheckpointPending` is raised; an already-pending `X` without matching
confirmation re-raises `CheckpointPending` with no state change. -/
theorem checkpoint_gate_three_branch_rule
    (cps : List String) (X message : String) (env : Env) (st : St)
    (hX : X ∈ cps) (hdry : env.dryRun = false) :
    (env.confirm = some X →
      checkpointM cps X message env st =
        (.ok (), { st with
          doc := popKey (popKey st.doc "pending_checkpoint") "pending_message",
          savedDocs :=
            popKey (popKey st.doc "pending_checkpoint") "pending_message" :: st.savedDocs }) ∧
      getKey (popKey (popKey st.doc "pending_checkpoint") "pending_message")
        "pending_checkpoint" = none ∧
      getKey (popKey (popKey st.doc "pending_checkpoint") "pending_message")
        "pending_message" = none) ∧
    (env.confirm ≠ some X → pendingIs st.doc X = false →
      checkpointM cps X message env st =
        (.error (.checkpointPending (pendingMsg X message)), { st with
          doc := setKey (setKey st.doc "pending_checkpoint" (.vstr X))
            "pending_message" (.vstr message),
          savedDocs := setKey (setKey st.doc "pending_checkpoint" (.vstr X))
            "pending_message" (.vstr message) :: st.savedDocs }) ∧
      getKey (setKey (setKey st.doc "pending_checkpoint" (.vstr X))
        "pending_message" (.vstr message)) "pending_checkpoint" = some (.vstr X) ∧
      getKey (setKey (setKey st.doc "pending_checkpoint" (.vstr X))
        "pending_message" (.vstr message)) "pending_message" = some (.vstr message)) ∧
    (env.confirm ≠ some X → pendingIs st.doc X = true →
      checkpointM cps X message env st =
        (.error (.checkpointPending (pendingMsg X message)), st)) := by
  have hpcpm : ("pending_checkpoint" : String) ≠ "pending_message" := by decide
  refine ⟨fun hc => ⟨?_, ?_, ?_⟩, fun hc hp => ⟨?_, ?_, ?_⟩, fun hc hp => ?_⟩
  · simp [checkpointM, hX, hdry, hc]
  · rw [getKey_popKey_ne _ _ _ hpcpm, getKey_popKey_self]
  · exact getKey_popKey_self _ _
  · simp [checkpointM, hX, hdry, hc, hp]
  · rw [getKey_setKey_ne _ _ _ _ hpcpm, getKey_setKey_self]
  · exact getKey_setKey_self _ _ _
  · simp [checkpointM, hX, hdry, hc, hp]

/-- Witness for C1: the confirm branch at a concrete pending state. -/
theorem checkpoint_gate_three_branch_rule_witness :
    checkpointM QS_CHECKPOINTS "TRIGGER_SYNC_WORKFLOW" "trigger sync"
      (envFixture false (some "TRIGGER_SYNC_WORKFLOW"))
      (stFixture [("pending_checkpoint", .vstr "TRIGGER_SYNC_WORKFLOW"),
                  ("pending_message", .vstr "trigger sync")]) =
      (.ok (), { stFixture [("pending_checkpoint", .vstr "TRIGGER_SYNC_WORKFLOW"),
                            ("pending_message", .vstr "trigger sync")] with
        doc := [], savedDocs := [[]] }) :=
  ((checkpoint_gate_three_branch_rule QS_CHECKPOINTS "TRIGGER_SYNC_WORKFLOW"
      "trigger sync" (envFixture false (some "TRIGGER_SYNC_WORKFLOW"))
      (stFixture [("pending_checkpoint", .vstr "TRIGGER_SYNC_WORKFLOW"),
                  ("pending_message", .vstr "trigger sync")])
      (by decide) rfl).1 rfl).1

/-- C9: a checkpoint name outside the fixed checkpoint set makes the
gate raise the fatal `ReleaseFlowError` (never `CheckpointPending`),
with no state-document write and no save, dry-run included (the check
precedes the dry-run bypass). -/
theorem checkpoint_gate_unknown_name
    (cps : List String) (X message : String) (env : Env) (st : St) (hX : X ∉ cps) :
    checkpointM cps X message env st =
      (.error (.releaseFlowError ("Unknown checkpoint: " ++ X)), st) := by
  simp [checkpointM, hX]

/-- Witness for C9: an undeclared name is rejected even in dry-run. -/
theorem checkpoint_gate_unknown_name_witness :
    checkpointM QS_CHECKPOINTS "NOT_A_CHECKPOINT" "m" (envFixture true none)
      (stFixture []) =
      (.error (.releaseFlowError ("Unknown checkpoint: " ++ "NOT_A_CHECKPOINT")),
       stFixture []) :=
  checkpoint_gate_unknown_name QS_CHECKPOINTS "NOT_A_CHECKPOINT" "m"
    (envFixture true none) (stFixture []) (by decide)

/-! ### Claims about the Command Executor and exit codes -/

/-- C8: when dry-run is enabled and the command is flagged as mutating,
neither flow's `_run_command` starts a subprocess: the synthetic success
result (empty stdout, empty stderr, exit code 0) is returned with the
state untouched; in every other combination the command is actually
executed (appended to the subprocess log). -/
theorem run_command_dry_run_suppression
    (cmd : List String) (mutate check : Bool) (tmo : Option Int) (env : Env) (st : St) :
    (env.dryRun = true → mutate = true →
      runCommandQS cmd mutate check tmo env st =
        (.ok { stdout := "", stderr := "", returncode := 0 }, st) ∧
      runCommandRel cmd mutate check env st =
        (.ok { stdout := "", stderr := "", returncode := 0 }, st)) ∧
    (¬ (env.dryRun = true ∧ mutate = true) →
      (runCommandQS cmd mutate check tmo env st).2.executed = st.executed ++ [cmd] ∧
      (runCommandRel cmd mutate check env st).2.executed = st.executed ++ [cmd]) := by
  refine ⟨fun hd hm => by simp [runCommandQS, runCommandRel, hd, hm], fun h => ?_⟩
  have hb : (env.dryRun && mutate) = false := by
    cases hd : env.dryRun <;> cases hm : mutate <;> simp_all
  constructor
  · cases hresp : env.responses st.executed.length with
    | completed r =>
        simp [runCommandQS, hb, hresp]
        split <;> rfl
    | timedOut o e =>
        cases tmo with
        | none => simp [runCommandQS, hb, hresp]
        | some t => simp [runCommandQS, hb, hresp]
  · cases hresp : env.responses st.executed.length with
    | completed r =>
        simp [runCommandRel, hb, hresp]
        split <;> rfl
    | timedOut o e =>
        simp [runCommandRel, hb, hresp]

/-- Witness for C8: a mutating command under dry-run is suppressed, and
the same command outside dry-run is executed. -/
theorem run_command_dry_run_suppression_witness :
    runCommandQS ["gh", "workflow", "run", "docker-publish.yml"] true true none
      (envFixture true none) (stFixture []) =
      (.ok { stdout := "", stderr := "", returncode := 0 }, stFixture []) ∧
    (runCommandQS ["gh", "workflow", "run", "docker-publish.yml"] true true none
      (envFixture false none) (stFixture [])).2.executed =
      [["gh", "workflow", "run", "docker-publish.yml"]] :=
  ⟨((run_command_dry_run_suppression ["gh", "workflow", "run", "docker-publish.yml"]
      true true none (envFixture true none) (stFixture [])).1 rfl rfl).1,
   ((run_command_dry_run_suppression ["gh", "workflow", "run", "docker-publish.yml"]
      true true none (envFixture false none) (stFixture [])).2
      (by intro hcon; exact absurd hcon.1 (by decide))).1⟩

/-- C6 amended: the quick-start `main` exits with three pairwise
distinct codes (0 success, 2 checkpoint-pending, 1 failure), but the
apollo formal-release `main` returns 0 for `CheckpointPending` — the
same code as success — and 1 for failure. -/
theorem exit_codes_amended (mp mf mp' mf' : String) :
    exitCodeQS (.ok ()) = 0 ∧
    exitCodeQS (.error (.checkpointPending mp)) = 2 ∧
    exitCodeQS (.error (.releaseFlowError mf)) = 1 ∧
    exitCodeQS (.error (.checkpointPending mp)) ≠ exitCodeQS (.ok ()) ∧
    exitCodeQS (.error (.checkpointPending mp)) ≠ exitCodeQS (.error (.releaseFlowError mf)) ∧
    exitCodeQS (.error (.releaseFlowError mf)) ≠ exitCodeQS (.ok ()) ∧
    exitCodeRel (.error (.checkpointPending mp')) = exitCodeRel (.ok ()) ∧
    exitCodeRel (.error (.releaseFlowError mf')) = 1 ∧
    exitCodeRel (.ok ()) = 0 := by
  simp [exitCodeQS, exitCodeRel]

/-- Counterexample for C6: in the apollo formal-release `main`, the
checkpoint-pending exit code equals the success exit code. -/
theorem exit_codes_counterexample :
    exitCodeRel (.error (.checkpointPending (pendingMsg "PROMOTE_RELEASE"
      "Promote prerelease to official release and mark it as latest."))) = 0 ∧
    exitCodeRel (.ok ()) = 0 :=
  ⟨rfl, rfl⟩

/-! ### Claims about the Step Ledger -/

/-- C5: when the state document already maps the step's name to a
truthy done flag, the cited step functions (`_trigger_docker_workflow`
of quick-start, `_trigger_package_workflow` of apollo formal-release)
return immediately: no subprocess is started, nothing is saved, and the
whole flow state — document included — is unchanged. -/
theorem step_skip_when_done
    (env env₂ : Env) (st st₂ : St) (m m₂ : List (String × Val)) (v v₂ : Val)
    (h1 : getKey st.doc "steps" = some (.vobj m))
    (h2 : getKey m "docker_workflow_completed" = some v)
    (h3 : pyTruthy v = true)
    (h4 : getKey st₂.doc "steps" = some (.vobj m₂))
    (h5 : getKey m₂ "package_workflow_completed" = some v₂)
    (h6 : pyTruthy v₂ = true) :
    triggerDockerWorkflowQS env st = (.ok (), st) ∧
    triggerPackageWorkflowRel env₂ st₂ = (.ok (), st₂) := by
  constructor
  · simp [triggerDockerWorkflowQS, mbind, stepDoneM, stepsMapping, h1, h2, h3, mret]
  · simp [triggerPackageWorkflowRel, mbind, stepDoneM, stepsMapping, h4, h5, h6, mret]

/-- Witness for C5: both step functions skip on a concrete done state. -/
theorem step_skip_when_done_witness :
    triggerDockerWorkflowQS (envFixture false none)
      (stFixture [("steps", .vobj [("docker_workflow_completed", .vbool true)])]) =
      (.ok (), stFixture [("steps", .vobj [("docker_workflow_completed", .vbool true)])]) ∧
    triggerPackageWorkflowRel (envFixture false none)
      (stFixture [("steps", .vobj [("package_workflow_completed", .vbool true)])]) =
      (.ok (), stFixture [("steps", .vobj [("package_workflow_completed", .vbool true)])]) :=
  step_skip_when_done (envFixture false none) (envFixture false none)
    (stFixture [("steps", .vobj [("docker_workflow_completed", .vbool true)])])
    (stFixture [("steps", .vobj [("package_workflow_completed", .vbool true)])])
    [("docker_workflow_completed", .vbool true)]
    [("package_workflow_completed", .vbool true)]
    (.vbool true) (.vbool true) rfl rfl rfl rfl rfl rfl

/-- C7 amended: in the quick-start flow, `_mark_step_done` raises on
metadata colliding with a reserved key and persists nothing, and merges
collision-free metadata without touching `steps`, `timestamps`, or the
invariant fields; the apollo formal-release `_mark_step_done` has no
reserved-key check and merges any metadata unchecked. -/
theorem mark_step_done_reserved_keys
    (key : String) (metadata : Doc) (env : Env) (st : St) (m : List (String × Val))
    (hsteps : getKey st.doc "steps" = some (.vobj m)) :
    (metadata.any (fun kv => kv.1 ∈ STATE_RESERVED_KEYS) = true →
      (markStepDoneQS key metadata env st).1 =
        .error (.releaseFlowError "Step metadata contains reserved keys") ∧
      (markStepDoneQS key metadata env st).2.savedDocs = st.savedDocs) ∧
    (metadata.any (fun kv => kv.1 ∈ STATE_RESERVED_KEYS) = false →
      markStepDoneQS key metadata env st =
        (.ok (), { st with
          doc := updateDict (setKey st.doc "steps"
            (.vobj (setKey m key (.vbool true)))) metadata,
          savedDocs := updateDict (setKey st.doc "steps"
            (.vobj (setKey m key (.vbool true)))) metadata :: st.savedDocs }) ∧
      getKey (updateDict (setKey st.doc "steps"
          (.vobj (setKey m key (.vbool true)))) metadata) "steps" =
        some (.vobj (setKey m key (.vbool true))) ∧
      getKey (updateDict (setKey st.doc "steps"
          (.vobj (setKey m key (.vbool true)))) metadata) "timestamps" =
        getKey st.doc "timestamps" ∧
      getKey (updateDict (setKey st.doc "steps"
          (.vobj (setKey m key (.vbool true)))) metadata) "release_version" =
        getKey st.doc "release_version" ∧
      getKey (updateDict (setKey st.doc "steps"
          (.vobj (setKey m key (.vbool true)))) metadata) "docker_tag" =
        getKey st.doc "docker_tag") ∧
    markStepDoneRel key metadata env st =
      (.ok (), { st with
        doc := updateDict (setKey st.doc "steps"
          (.vobj (setKey m key (.vbool true)))) metadata,
        savedDocs := updateDict (setKey st.doc "steps"
          (.vobj (setKey m key (.vbool true)))) metadata :: st.savedDocs }) := by
  have hne : ∀ k' : String, k' ≠ "steps" →
      getKey (setKey st.doc "steps" (.vobj (setKey m key (.vbool true)))) k' =
        getKey st.doc k' := fun k' h => getKey_setKey_ne _ _ _ _ h
  refine ⟨fun hany => ?_, fun hany => ?_, ?_⟩
  · have hne' : metadata.isEmpty = false := by
      cases metadata with
      | nil => simp at hany
      | cons kv rest => rfl
    constructor
    · simp [markStepDoneQS, stepsMapping, hsteps, hne', hany]
    · simp [markStepDoneQS, stepsMapping, hsteps, hne', hany]
  · have hnot : ∀ kv ∈ metadata, kv.1 ∉ STATE_RESERVED_KEYS := by
      intro kv hm
      have h' := (List.any_eq_false.mp hany) kv hm
      simpa using h'
    have hpres : ∀ k' : String, k' ∈ STATE_RESERVED_KEYS →
        getKey (updateDict (setKey st.doc "steps"
          (.vobj (setKey m key (.vbool true)))) metadata) k' =
        getKey (setKey st.doc "steps" (.vobj (setKey m key (.vbool true)))) k' := by
      intro k' hk'
      exact getKey_updateDict_not_mem metadata _ k'
        (fun kv hm he => hnot kv hm (he ▸ hk'))
    refine ⟨?_, ?_, ?_, ?_, ?_⟩
    · by_cases hm : metadata.isEmpty = true
      · have : metadata = [] := by
          cases metadata with
          | nil => rfl
          | cons kv rest => simp [List.isEmpty] at hm
        subst this
        simp [markStepDoneQS, stepsMapping, hsteps, updateDict_nil]
      · have hm' : metadata.isEmpty = false := by
          cases hb : metadata.isEmpty
          · rfl
          · exact absurd hb hm
        simp [markStepDoneQS, stepsMapping, hsteps, hm', hany]
    · rw [hpres "steps" (by decide), getKey_setKey_self]
    · rw [hpres "timestamps" (by decide), hne "timestamps" (by decide)]
    · rw [hpres "release_version" (by decide), hne "release_version" (by decide)]
    · rw [hpres "docker_tag" (by decide), hne "docker_tag" (by decide)]
  · by_cases hm : metadata.isEmpty = true
    · have : metadata = [] := by
        cases metadata with
        | nil => rfl
        | cons kv rest => simp [List.isEmpty] at hm
      subst this
      simp [markStepDoneRel, stepsMapping, hsteps, updateDict_nil]
    · have hm' : metadata.isEmpty = false := by
        cases hb : metadata.isEmpty
        · rfl
        · exact absurd hb hm
      simp [markStepDoneRel, stepsMapping, hsteps, hm']

/-- Witness for C7: the quick-start reject branch at concrete reserved
metadata. -/
theorem mark_step_done_reserved_keys_witness :
    (markStepDoneQS "preflight" [("docker_tag", .vstr "2.5.0")]
      (envFixture false none)
      (stFixture [("steps", .vobj [])])).1 =
      .error (.releaseFlowError "Step metadata contains reserved keys") :=
  ((mark_step_done_reserved_keys "preflight" [("docker_tag", .vstr "2.5.0")]
      (envFixture false none) (stFixture [("steps", .vobj [])]) [] rfl).1
    (by decide)).1

/-- Counterexample for C7: the apollo formal-release `_mark_step_done`
accepts metadata whose key is the reserved `steps` field and overwrites
the whole steps mapping with it, raising no error. -/
theorem mark_step_done_rel_counterexample :
    (markStepDoneRel "release_pr_prepared" [("steps", .vstr "boom")]
      (envFixture false none)
      (stFixture [("release_version", .vstr "2.5.0"),
                  ("timestamps", .vobj []), ("steps", .vobj [])])).1 = .ok () ∧
    getKey (markStepDoneRel "release_pr_prepared" [("steps", .vstr "boom")]
      (envFixture false none)
      (stFixture [("release_version", .vstr "2.5.0"),
                  ("timestamps", .vobj []), ("steps", .vobj [])])).2.doc "steps" =
      some (.vstr "boom") :=
  ⟨rfl, rfl⟩

/-! ### Claims about the Durable State Store -/

/-- C3 amended: both `_load_state` implementations return the empty
skeleton exactly for an absent file; a present file that does not parse
as JSON is a hard error (quick-start wraps it in a `ReleaseFlowError`,
apollo formal-release lets the decode error propagate) and never the
skeleton; but a file that parses as JSON is returned as loaded even
when it is not an object, with no corrupted-state error. -/
theorem load_state_absent_and_corrupted (text : String) :
    loadStateQS none = .ok skeletonQS ∧
    loadStateRel none = .ok skeletonRel ∧
    (jsonParse text = none →
      loadStateQS (some text) = .error (.releaseFlowError
        "State file is corrupted. Delete it to restart, or fix the JSON manually.") ∧
      loadStateRel (some text) = .error (.pyError "json.decoder.JSONDecodeError")) ∧
    (∀ v, jsonParse text = some v →
      loadStateQS (some text) = .ok v ∧ loadStateRel (some text) = .ok v) := by
  refine ⟨rfl, rfl, fun h => ?_, fun v h => ?_⟩ <;> simp [loadStateQS, loadStateRel, h]

/-- Witness for C3: a syntactically invalid file at a concrete input. -/
theorem load_state_absent_and_corrupted_witness :
    loadStateQS (some "not json") = .error (.releaseFlowError
      "State file is corrupted. Delete it to restart, or fix the JSON manually.") :=
  ((load_state_absent_and_corrupted "not json").2.2.1 rfl).1

/-- Counterexample for C3: `"[]"` is a present file whose contents are
not the expected structure (not a JSON object), yet both loads return
it without raising any corrupted-state error. -/
theorem load_state_counterexample :
    jsonParse "[]" = some (.varr []) ∧
    isObjVal (.varr []) = false ∧
    loadStateQS (some "[]") = .ok (.varr []) ∧
    isErrorRes (loadStateQS (some "[]")) = false ∧
    loadStateRel (some "[]") = .ok (.varr []) ∧
    isErrorRes (loadStateRel (some "[]")) = false :=
  ⟨rfl, rfl, rfl, rfl, rfl, rfl⟩

/-- The temporary path differs from the target path. -/
theorem tmpPath_ne_targetPath (dir name : String) :
    tmpPath dir name ≠ targetPath dir name := by
  intro h
  have h2 : ("." ++ name ++ ".tmp") = name := congrArg Prod.snd h
  have h3 := congrArg String.length h2
  rw [String.length_append, String.length_append] at h3
  have hdot : ("." : String).length = 1 := rfl
  have htmp : (".tmp" : String).length = 4 := rfl
  rw [hdot, htmp] at h3
  omega

/-- C2 amended (quick-start part): the quick-start `_save_state` trace
— write the document to a temp file in the target's directory, fsync,
atomically rename over the target — is crash-safe: any interruption
leaves the target holding either its previous contents or the complete
new document, never a partial write. -/
theorem save_state_qs_crash_safe (dir name content : String) (fs fs' : FS)
    (h : crashStates fs (saveStateOpsQS dir name content) fs') :
    fs' (targetPath dir name) = fs (targetPath dir name) ∨
    fs' (targetPath dir name) = some content := by
  have hne : targetPath dir name ≠ tmpPath dir name :=
    fun he => tmpPath_ne_targetPath dir name he.symm
  simp only [saveStateOpsQS, crashStates, midCrash, false_or, or_false] at h
  rcases h with h | ⟨c', rest, _, hfs⟩ | h | h | h
  · left; rw [h]
  · left; rw [hfs]; simp [setFile, hne]
  · left; rw [h]; simp [applyOp, setFile, hne]
  · left; rw [h]; simp [applyOp, setFile, hne]
  · right; rw [h]; simp [applyOp, setFile]

/-- Witness for C2: the crash-safety conclusion at a concrete crash
(before any operation ran). -/
theorem save_state_qs_crash_safe_witness :
    (fun _ : FPath => (none : Option String)) (targetPath "repo" "state.json") =
      (fun _ : FPath => (none : Option String)) (targetPath "repo" "state.json") ∨
    (fun _ : FPath => (none : Option String)) (targetPath "repo" "state.json") =
      some "doc" :=
  save_state_qs_crash_safe "repo" "state.json" "doc"
    (fun _ => none) (fun _ => none) (Or.inl rfl)

/-- Counterexample for C2: the apollo formal-release `_save_state` is a
single in-place write of the target, so a crash mid-write can leave a
half-written document (`"NEW"`) at the target path — neither the old
contents nor the complete new document. -/
theorem save_state_rel_counterexample :
    crashStates (setFile (fun _ => none) (targetPath "repo" "state.json") "OLDDOC")
      (saveStateOpsRel "repo" "state.json" "NEWDOC")
      (setFile (setFile (fun _ => none) (targetPath "repo" "state.json") "OLDDOC")
        (targetPath "repo" "state.json") "NEW") ∧
    setFile (setFile (fun _ => none) (targetPath "repo" "state.json") "OLDDOC")
      (targetPath "repo" "state.json") "NEW" (targetPath "repo" "state.json") =
      some "NEW" ∧
    (some "NEW" : Option String) ≠ some "OLDDOC" ∧
    (some "NEW" : Option String) ≠ some "NEWDOC" ∧
    setFile (fun _ => none) (targetPath "repo" "state.json") "OLDDOC"
      (targetPath "repo" "state.json") = some "OLDDOC" := by
  exact ⟨Or.inr (Or.inl ⟨"NEW", "DOC", by decide, rfl⟩), rfl, by decide, by decide, rfl⟩

/-! ### Claims about the Run-Waiter -/

theorem collectCandidates_sound (iso : String → Option Int) (th : Int)
    (runs : List Val) (cs : List (Int × Val))
    (h : collectCandidates iso th runs = .ok cs) :
    (∀ p ∈ cs, p.2 ∈ runs ∧ timeOf iso p.2 = some p.1 ∧ th ≤ p.1) ∧
    (∀ r ∈ runs, ∀ t, timeOf iso r = some t → th ≤ t → (t, r) ∈ cs) := by
  induction runs generalizing cs with
  | nil =>
      simp only [collectCandidates, Except.ok.injEq] at h
      subst h
      simp
  | cons run rest ih =>
      cases run with
      | vobj m =>
          rcases hga : getKey m "createdAt" with _ | v
          · have h' : collectCandidates iso th rest = .ok cs := by
              simpa [collectCandidates, hga] using h
            obtain ⟨ih1, ih2⟩ := ih cs h'
            refine ⟨fun p hp => ?_, fun r hr t ht hth => ?_⟩
            · obtain ⟨hm, htime, hle⟩ := ih1 p hp
              exact ⟨List.mem_cons_of_mem _ hm, htime, hle⟩
            · rcases List.mem_cons.mp hr with hr | hr
              · subst hr
                simp [timeOf, hga] at ht
              · exact ih2 r hr t ht hth
          · cases v with
            | vstr s =>
                rcases hiso : iso s with _ | t₀
                · simp [collectCandidates, hga, hiso] at h
                · by_cases hth₀ : th ≤ t₀
                  · have h' : ∃ cs', collectCandidates iso th rest = .ok cs' ∧
                        cs = (t₀, .vobj m) :: cs' := by
                      simp only [collectCandidates, hga, hiso, if_pos hth₀] at h
                      cases hrec : collectCandidates iso th rest with
                      | error e => rw [hrec] at h; simp [Except.map] at h
                      | ok cs' =>
                          rw [hrec] at h
                          simp [Except.map] at h
                          exact ⟨cs', rfl, h.symm⟩
                    obtain ⟨cs', hrec, hcs⟩ := h'
                    obtain ⟨ih1, ih2⟩ := ih cs' hrec
                    subst hcs
                    refine ⟨fun p hp => ?_, fun r hr t ht hth => ?_⟩
                    · rcases List.mem_cons.mp hp with hp | hp
                      · subst hp
                        exact ⟨List.mem_cons_self _ _, by simp [timeOf, hga, hiso], hth₀⟩
                      · obtain ⟨hm, htime, hle⟩ := ih1 p hp
                        exact ⟨List.mem_cons_of_mem _ hm, htime, hle⟩
                    · rcases List.mem_cons.mp hr with hr | hr
                      · subst hr
                        simp [timeOf, hga, hiso] at ht
                        subst ht
                        exact List.mem_cons_self _ _
                      · exact List.mem_cons_of_mem _ (ih2 r hr t ht hth)
                  · have h' : collectCandidates iso th rest = .ok cs := by
                      simpa [collectCandidates, hga, hiso, if_neg hth₀] using h
                    obtain ⟨ih1, ih2⟩ := ih cs h'
                    refine ⟨fun p hp => ?_, fun r hr t ht hth => ?_⟩
                    · obtain ⟨hm, htime, hle⟩ := ih1 p hp
                      exact ⟨List.mem_cons_of_mem _ hm, htime, hle⟩
                    · rcases List.mem_cons.mp hr with hr | hr
                      · subst hr
                        simp [timeOf, hga, hiso] at ht
                        subst ht
                        exact absurd hth hth₀
                      · exact ih2 r hr t ht hth
            | vnull =>
                have h' : collectCandidates iso th rest = .ok cs := by
                  simpa [collectCandidates, hga] using h
                obtain ⟨ih1, ih2⟩ := ih cs h'
                refine ⟨fun p hp => ?_, fun r hr t ht hth => ?_⟩
                · obtain ⟨hm, htime, hle⟩ := ih1 p hp
                  exact ⟨List.mem_cons_of_mem _ hm, htime, hle⟩
                · rcases List.mem_cons.mp hr with hr | hr
                  · subst hr
                    simp [timeOf, hga] at ht
                  · exact ih2 r hr t ht hth
            | vbool b =>
                have h' : collectCandidates iso th rest = .ok cs := by
                  simpa [collectCandidates, hga] using h
                obtain ⟨ih1, ih2⟩ := ih cs h'
                refine ⟨fun p hp => ?_, fun r hr t ht hth => ?_⟩
                · obtain ⟨hm, htime, hle⟩ := ih1 p hp
                  exact ⟨List.mem_cons_of_mem _ hm, htime, hle⟩
                · rcases List.mem_cons.mp hr with hr | hr
                  · subst hr
                    simp [timeOf, hga] at ht
                  · exact ih2 r hr t ht hth
            | vint n =>
                have h' : collectCandidates iso th rest = .ok cs := by
                  simpa [collectCandidates, hga] using h
                obtain ⟨ih1, ih2⟩ := ih cs h'
                refine ⟨fun p hp => ?_, fun r hr t ht hth => ?_⟩
                · obtain ⟨hm, htime, hle⟩ := ih1 p hp
                  exact ⟨List.mem_cons_of_mem _ hm, htime, hle⟩
                · rcases List.mem_cons.mp hr with hr | hr
                  · subst hr
                    simp [timeOf, hga] at ht
                  · exact ih2 r hr t ht hth
            | varr items =>
                have h' : collectCandidates iso th rest = .ok cs := by
                  simpa [collectCandidates, hga] using h
                obtain ⟨ih1, ih2⟩ := ih cs h'
                refine ⟨fun p hp => ?_, fun r hr t ht hth => ?_⟩
                · obtain ⟨hm, htime, hle⟩ := ih1 p hp
                  exact ⟨List.mem_cons_of_mem _ hm, htime, hle⟩
                · rcases List.mem_cons.mp hr with hr | hr
                  · subst hr
                    simp [timeOf, hga] at ht
                  · exact ih2 r hr t ht hth
            | vobj m' =>
                have h' : collectCandidates iso th rest = .ok cs := by
                  simpa [collectCandidates, hga] using h
                obtain ⟨ih1, ih2⟩ := ih cs h'
                refine ⟨fun p hp => ?_, fun r hr t ht hth => ?_⟩
                · obtain ⟨hm, htime, hle⟩ := ih1 p hp
                  exact ⟨List.mem_cons_of_mem _ hm, htime, hle⟩
                · rcases List.mem_cons.mp hr with hr | hr
                  · subst hr
                    simp [timeOf, hga] at ht
                  · exact ih2 r hr t ht hth
      | vnull => simp [collectCandidates] at h
      | vbool b => simp [collectCandidates] at h
      | vint n => simp [collectCandidates] at h
      | vstr s => simp [collectCandidates] at h
      | varr items => simp [collectCandidates] at h

theorem pickLatest_mem (hd : Int × Val) (tl : List (Int × Val)) :
    pickLatest hd tl ∈ hd :: tl := by
  induction tl generalizing hd with
  | nil => simp [pickLatest]
  | cons c cs ih =>
      have hstep : pickLatest hd (c :: cs) = pickLatest (if hd.1 < c.1 then c else hd) cs := rfl
      rw [hstep]
      by_cases h : hd.1 < c.1
      · rw [if_pos h]
        rcases List.mem_cons.mp (ih c) with h' | h'
        · rw [h']; exact List.mem_cons_of_mem _ (List.mem_cons_self _ _)
        · exact List.mem_cons_of_mem _ (List.mem_cons_of_mem _ h')
      · rw [if_neg h]
        rcases List.mem_cons.mp (ih hd) with h' | h'
        · rw [h']; exact List.mem_cons_self _ _
        · exact List.mem_cons_of_mem _ (List.mem_cons_of_mem _ h')

theorem pickLatest_max (hd : Int × Val) (tl : List (Int × Val)) :
    ∀ p ∈ hd :: tl, p.1 ≤ (pickLatest hd tl).1 := by
  induction tl generalizing hd with
  | nil =>
      intro p hp
      rcases List.mem_cons.mp hp with h | h
      · rw [h]; exact le_refl _
      · simp at h
  | cons c cs ih =>
      intro p hp
      have hstep : pickLatest hd (c :: cs) = pickLatest (if hd.1 < c.1 then c else hd) cs := rfl
      set b := if hd.1 < c.1 then c else hd with hb
      have hhd : hd.1 ≤ b.1 := by
        rw [hb]; by_cases h : hd.1 < c.1
        · rw [if_pos h]; exact le_of_lt h
        · rw [if_neg h]
      have hc : c.1 ≤ b.1 := by
        rw [hb]; by_cases h : hd.1 < c.1
        · rw [if_pos h]
        · rw [if_neg h]; exact le_of_not_lt h
      have hbmax := ih b
      have hbres : b.1 ≤ (pickLatest b cs).1 := hbmax b (List.mem_cons_self _ _)
      rw [hstep]
      rcases List.mem_cons.mp hp with h | h
      · rw [h]; exact le_trans hhd hbres
      · rcases List.mem_cons.mp h with h' | h'
        · rw [h']; exact le_trans hc hbres
        · exact hbmax p (List.mem_cons_of_mem _ h')

theorem firstMatchingRun_sound (iso : String → Option Int) (startedAt : Int)
    (runs : List Val) (r : Val)
    (h : firstMatchingRun iso startedAt runs = .ok (some r)) :
    ∃ pre post, runs = pre ++ r :: post ∧
      (∃ t, timeOf iso r = some t ∧ startedAt - 5 ≤ t) ∧
      ∀ r' ∈ pre, ∃ t', timeOf iso r' = some t' ∧ t' < startedAt - 5 := by
  induction runs with
  | nil => simp [firstMatchingRun] at h
  | cons run rest ih =>
      cases run with
      | vobj m =>
          rcases hga : getKey m "createdAt" with _ | v
          · simp [firstMatchingRun, hga] at h
          · cases v with
            | vstr s =>
                rcases hiso : iso s with _ | t₀
                · simp [firstMatchingRun, hga, hiso] at h
                · by_cases hth : startedAt - 5 ≤ t₀
                  · have hr : r = .vobj m := by
                      have h₂ := h
                      simp only [firstMatchingRun, hga, hiso] at h₂
                      rw [if_pos hth] at h₂
                      simpa using h₂.symm
                    subst hr
                    exact ⟨[], rest, rfl,
                      ⟨t₀, by simp [timeOf, hga, hiso], hth⟩, by simp⟩
                  · have h' : firstMatchingRun iso startedAt rest = .ok (some r) := by
                      have h₂ := h
                      simp only [firstMatchingRun, hga, hiso] at h₂
                      rwa [if_neg hth] at h₂
                    obtain ⟨pre, post, hsplit, hmatch, hpre⟩ := ih h'
                    refine ⟨.vobj m :: pre, post, by rw [hsplit]; rfl, hmatch, ?_⟩
                    intro r' hr'
                    rcases List.mem_cons.mp hr' with h'' | h''
                    · subst h''
                      exact ⟨t₀, by simp [timeOf, hga, hiso], lt_of_not_le hth⟩
                    · exact hpre r' h''
            | vnull => simp [firstMatchingRun, hga] at h
            | vbool b => simp [firstMatchingRun, hga] at h
            | vint n => simp [firstMatchingRun, hga] at h
            | varr items => simp [firstMatchingRun, hga] at h
            | vobj m' => simp [firstMatchingRun, hga] at h
      | vnull => simp [firstMatchingRun] at h
      | vbool b => simp [firstMatchingRun] at h
      | vint n => simp [firstMatchingRun] at h
      | vstr s => simp [firstMatchingRun] at h
      | varr items => simp [firstMatchingRun] at h

/-- A concrete instant decoder for run-waiter examples (digit strings
as instants), standing in for `datetime.fromisoformat`. -/
def isoFix (s : String) : Option Int :=
  if s.toList.all Char.isDigit ∧ s ≠ "" then some (digitsVal s.toList) else none

/-- A concrete run entry with the given creation instant and id. -/
def runAt (s : String) (id : Int) : Val :=
  .vobj [("createdAt", .vstr s), ("databaseId", .vint id)]

/-- C4 amended: both waiters consider exactly the runs created at or
after `startedAfter - 5`; the quick-start `select_workflow_run` returns
the latest-created match (`none` when no run matches), while the apollo
formal-release `_wait_for_new_run` returns the first match in listing
order, which need not be the latest-created; on the spec's example
`[t-50s, t+5s, t+1s]` with `startedAfter = t` both select the `t+5s`
run, and with every run strictly before `t-5s` neither finds a match. -/
theorem run_waiter_selection_amended :
    (∀ (iso : String → Option Int) (runs : List Val) (startedAt : Int) (r : Val),
      select_workflow_run iso runs startedAt = .ok (some r) →
      ∃ t, timeOf iso r = some t ∧ startedAt - 5 ≤ t ∧ r ∈ runs ∧
        ∀ r' ∈ runs, ∀ t', timeOf iso r' = some t' → startedAt - 5 ≤ t' → t' ≤ t) ∧
    (∀ (iso : String → Option Int) (runs : List Val) (startedAt : Int),
      select_workflow_run iso runs startedAt = .ok none →
      ∀ r' ∈ runs, ∀ t', timeOf iso r' = some t' → t' < startedAt - 5) ∧
    (∀ (iso : String → Option Int) (startedAt : Int) (runs : List Val) (r : Val),
      firstMatchingRun iso startedAt runs = .ok (some r) →
      ∃ pre post, runs = pre ++ r :: post ∧
        (∃ t, timeOf iso r = some t ∧ startedAt - 5 ≤ t) ∧
        ∀ r' ∈ pre, ∃ t', timeOf iso r' = some t' ∧ t' < startedAt - 5) ∧
    (select_workflow_run isoFix [runAt "50" 1, runAt "105" 2, runAt "101" 3] 100 =
        .ok (some (runAt "105" 2)) ∧
      firstMatchingRun isoFix 100 [runAt "50" 1, runAt "105" 2, runAt "101" 3] =
        .ok (some (runAt "105" 2))) ∧
    (select_workflow_run isoFix [runAt "50" 1, runAt "90" 2] 100 = .ok none ∧
      firstMatchingRun isoFix 100 [runAt "50" 1, runAt "90" 2] = .ok none) := by
  refine ⟨?_, ?_, ?_, ⟨rfl, rfl⟩, ⟨rfl, rfl⟩⟩
  · intro iso runs startedAt r h
    unfold select_workflow_run at h
    cases hcol : collectCandidates iso (startedAt - 5) runs with
    | error e => rw [hcol] at h; exact absurd h (by simp)
    | ok cs =>
        rw [hcol] at h
        cases cs with
        | nil => exact absurd h (by simp)
        | cons c cs' =>
            have hr : r = (pickLatest c cs').2 := by simpa using h.symm
            obtain ⟨hsound1, hsound2⟩ :=
              collectCandidates_sound iso (startedAt - 5) runs (c :: cs') hcol
            obtain ⟨hmem, htime, hth⟩ := hsound1 (pickLatest c cs') (pickLatest_mem c cs')
            refine ⟨(pickLatest c cs').1, by rw [hr]; exact htime, hth,
              by rw [hr]; exact hmem, ?_⟩
            intro r' hr' t' ht' hth'
            exact pickLatest_max c cs' (t', r') (hsound2 r' hr' t' ht' hth')
  · intro iso runs startedAt h r' hr' t' ht'
    unfold select_workflow_run at h
    cases hcol : collectCandidates iso (startedAt - 5) runs with
    | error e => rw [hcol] at h; exact absurd h (by simp)
    | ok cs =>
        rw [hcol] at h
        cases cs with
        | cons c cs' => exact absurd h (by simp)
        | nil =>
            obtain ⟨_, hsound2⟩ :=
              collectCandidates_sound iso (startedAt - 5) runs [] hcol
            by_contra hcon
            have hth' : startedAt - 5 ≤ t' := le_of_not_lt hcon
            exact absurd (hsound2 r' hr' t' ht' hth') (by simp)
  · intro iso startedAt runs r h
    exact firstMatchingRun_sound iso startedAt runs r h

/-- Witness for C4: the latest-match characterization applied at the
spec's example run list. -/
theorem run_waiter_selection_amended_witness :
    ∃ t, timeOf isoFix (runAt "105" 2) = some t ∧ (100 : Int) - 5 ≤ t ∧
      runAt "105" 2 ∈ [runAt "50" 1, runAt "105" 2, runAt "101" 3] ∧
      ∀ r' ∈ [runAt "50" 1, runAt "105" 2, runAt "101" 3], ∀ t',
        timeOf isoFix r' = some t' → (100 : Int) - 5 ≤ t' → t' ≤ t :=
  run_waiter_selection_amended.1 isoFix
    [runAt "50" 1, runAt "105" 2, runAt "101" 3] 100 (runAt "105" 2) rfl

/-- Counterexample for C4: in the apollo formal-release waiter, a match
listed earlier wins over a later-created match, so the selected run is
not the one with the latest creation timestamp. -/
theorem run_waiter_selection_counterexample :
    firstMatchingRun isoFix 100 [runAt "101" 1, runAt "105" 2] =
      .ok (some (runAt "101" 1)) ∧
    select_workflow_run isoFix [runAt "101" 1, runAt "105" 2] 100 =
      .ok (some (runAt "105" 2)) ∧
    timeOf isoFix (runAt "101" 1) = some 101 ∧
    timeOf isoFix (runAt "105" 2) = some 105 ∧
    ((101 : Int) < 105) :=
  ⟨rfl, rfl, rfl, rfl, by decide⟩

/-! ### Claim about `parse_highlight_pr_numbers` -/

theorem prGo_error_iff (ts : List String) : ∀ seen nums : List Nat,
    (∃ e, prGo ts seen nums = .error e) ↔
    ∃ t ∈ ts, ¬ isDigits t = true ∨ natOf t = 0 := by
  induction ts with
  | nil => intro seen nums; simp [prGo]
  | cons t ts ih =>
      intro seen nums
      by_cases hd : isDigits t = true
      · by_cases hz : natOf t = 0
        · constructor
          · intro _
            exact ⟨t, List.mem_cons_self _ _, Or.inr hz⟩
          · intro _
            exact ⟨"Invalid PR number: " ++ t, by simp [prGo, hd, hz]⟩
        · by_cases hmem : natOf t ∈ seen
          · constructor
            · intro ⟨e, he⟩
              have he' : prGo ts seen nums = .error e := by
                simpa [prGo, hd, hz, hmem] using he
              obtain ⟨t', ht', hp⟩ := (ih seen nums).mp ⟨e, he'⟩
              exact ⟨t', List.mem_cons_of_mem _ ht', hp⟩
            · intro ⟨t', ht', hp⟩
              rcases List.mem_cons.mp ht' with h' | h'
              · subst h'
                rcases hp with hp | hp
                · exact absurd hd hp
                · exact absurd hp hz
              · obtain ⟨e, he⟩ := (ih seen nums).mpr ⟨t', h', hp⟩
                exact ⟨e, by simp [prGo, hd, hz, hmem, he]⟩
          · constructor
            · intro ⟨e, he⟩
              have he' : prGo ts (natOf t :: seen) (nums ++ [natOf t]) = .error e := by
                simpa [prGo, hd, hz, hmem] using he
              obtain ⟨t', ht', hp⟩ := (ih _ _).mp ⟨e, he'⟩
              exact ⟨t', List.mem_cons_of_mem _ ht', hp⟩
            · intro ⟨t', ht', hp⟩
              rcases List.mem_cons.mp ht' with h' | h'
              · subst h'
                rcases hp with hp | hp
                · exact absurd hd hp
                · exact absurd hp hz
              · obtain ⟨e, he⟩ :=
                  (ih (natOf t :: seen) (nums ++ [natOf t])).mpr ⟨t', h', hp⟩
                exact ⟨e, by simp [prGo, hd, hz, hmem, he]⟩
      · constructor
        · intro _
          exact ⟨t, List.mem_cons_self _ _, Or.inl hd⟩
        · intro _
          exact ⟨"Invalid PR number: " ++ t, by simp [prGo, hd]⟩

theorem prGo_ok_spec (ts : List String) : ∀ seen nums ns : List Nat,
    prGo ts seen nums = .ok ns → (∀ x : Nat, x ∈ seen ↔ x ∈ nums) →
    ns = List.foldl (fun acc x => if x ∈ acc then acc else acc ++ [x]) nums
      (ts.map natOf) := by
  induction ts with
  | nil =>
      intro seen nums ns h _
      simpa [prGo] using h.symm
  | cons t ts ih =>
      intro seen nums ns h hinv
      by_cases hd : isDigits t = true
      · by_cases hz : natOf t = 0
        · simp [prGo, hd, hz] at h
        · by_cases hmem : natOf t ∈ seen
          · have h' : prGo ts seen nums = .ok ns := by
              simpa [prGo, hd, hz, hmem] using h
            have hm' : natOf t ∈ nums := (hinv _).mp hmem
            rw [ih seen nums ns h' hinv]
            simp [hm']
          · have h' : prGo ts (natOf t :: seen) (nums ++ [natOf t]) = .ok ns := by
              simpa [prGo, hd, hz, hmem] using h
            have hinv' : ∀ x : Nat, x ∈ natOf t :: seen ↔ x ∈ nums ++ [natOf t] := by
              intro x
              simp [List.mem_cons, List.mem_append, hinv x]
              tauto
            have hm' : natOf t ∉ nums := fun hc => hmem ((hinv _).mpr hc)
            rw [ih _ _ ns h' hinv']
            simp [hm']
      · simp [prGo, hd] at h

theorem prGo_ok_pos (ts : List String) : ∀ seen nums ns : List Nat,
    prGo ts seen nums = .ok ns → (∀ n ∈ nums, 0 < n) → ∀ n ∈ ns, 0 < n := by
  induction ts with
  | nil =>
      intro seen nums ns h hpos
      have : nums = ns := by simpa [prGo] using h
      exact this ▸ hpos
  | cons t ts ih =>
      intro seen nums ns h hpos
      by_cases hd : isDigits t = true
      · by_cases hz : natOf t = 0
        · simp [prGo, hd, hz] at h
        · by_cases hmem : natOf t ∈ seen
          · have h' : prGo ts seen nums = .ok ns := by
              simpa [prGo, hd, hz, hmem] using h
            exact ih seen nums ns h' hpos
          · have h' : prGo ts (natOf t :: seen) (nums ++ [natOf t]) = .ok ns := by
              simpa [prGo, hd, hz, hmem] using h
            refine ih _ _ ns h' ?_
            intro n hn
            rcases List.mem_append.mp hn with hn | hn
            · exact hpos n hn
            · have : n = natOf t := by simpa using hn
              subst this
              exact Nat.pos_of_ne_zero hz
      · simp [prGo, hd] at h

theorem foldl_dedup_nodup (l : List Nat) : ∀ acc : List Nat, acc.Nodup →
    (List.foldl (fun acc x => if x ∈ acc then acc else acc ++ [x]) acc l).Nodup := by
  induction l with
  | nil => intro acc h; simpa using h
  | cons x l ih =>
      intro acc h
      by_cases hx : x ∈ acc
      · simpa [hx] using ih acc h
      · have h' : (acc ++ [x]).Nodup := by
          simp [List.nodup_append, h, hx]
        simpa [hx] using ih (acc ++ [x]) h'

/-- C10: `parse_highlight_pr_numbers` raises `ValueError` exactly when
the input has no tokens after splitting on commas and whitespace, or
some token is not a string of decimal digits, or some token parses to
zero; otherwise it returns strictly positive integers with duplicates
removed, preserving the order of each number's first occurrence. -/
theorem parse_highlight_pr_numbers_spec (raw : String) :
    ((∃ e, parse_highlight_pr_numbers raw = .error e) ↔
      (hlTokens raw = [] ∨
        ∃ t ∈ hlTokens raw, ¬ isDigits t = true ∨ natOf t = 0)) ∧
    (∀ ns, parse_highlight_pr_numbers raw = .ok ns →
      (∀ n ∈ ns, 0 < n) ∧ ns.Nodup ∧
      ns = dedupFirstOcc ((hlTokens raw).map natOf)) := by
  by_cases hemp : (hlTokens raw).isEmpty = true
  · have he : hlTokens raw = [] := by
      cases hcase : hlTokens raw with
      | nil => rfl
      | cons t ts => rw [hcase] at hemp; simp [List.isEmpty] at hemp
    constructor
    · constructor
      · intro _; exact Or.inl he
      · intro _
        exact ⟨"No PR numbers provided", by simp [parse_highlight_pr_numbers, hemp]⟩
    · intro ns h
      simp [parse_highlight_pr_numbers, hemp] at h
  · have hne : hlTokens raw ≠ [] := by
      intro hc
      rw [hc] at hemp
      exact hemp rfl
    constructor
    · have hred : parse_highlight_pr_numbers raw = prGo (hlTokens raw) [] [] := by
        simp [parse_highlight_pr_numbers, hemp]
      rw [hred]
      rw [prGo_error_iff (hlTokens raw) [] []]
      constructor
      · exact Or.inr
      · intro h
        rcases h with h | h
        · exact absurd h hne
        · exact h
    · intro ns h
      have hred : prGo (hlTokens raw) [] [] = .ok ns := by
        simpa [parse_highlight_pr_numbers, hemp] using h
      refine ⟨prGo_ok_pos (hlTokens raw) [] [] ns hred (by simp) , ?_, ?_⟩
      · rw [prGo_ok_spec (hlTokens raw) [] [] ns hred (by simp)]
        exact foldl_dedup_nodup _ [] List.nodup_nil
      · exact prGo_ok_spec (hlTokens raw) [] [] ns hred (by simp)

/-- Witness for C10: the success characterization at a concrete input
with a duplicate. -/
theorem parse_highlight_pr_numbers_spec_witness :
    (∀ n ∈ [5336, 5361, 7], 0 < n) ∧ List.Nodup [5336, 5361, 7] ∧
      [5336, 5361, 7] = dedupFirstOcc ((hlTokens "5336, 5361,5336 7").map natOf) :=
  (parse_highlight_pr_numbers_spec "5336, 5361,5336 7").2 [5336, 5361, 7] rfl

end Apollo
